import Mathlib

/-!
Verification of the shipyard core fragments: the borrow-error taxonomy
(src/src/error.rs), the exact-chunk iterator
(src/src/iter/iterators/tight/chunk_exact/single.rs), the closed iterator
dispatch (src/src/iter/iterators/iter/single.rs), the map and with-id
combinators (src/src/iter/map.rs, src/src/iter/with_id.rs), bulk registration
(src/src/world/register.rs) and the argument check of the system attribute
(src/shipyard_proc/src/lib.rs).

Rust code is embedded shallowly: structs become structures, enums become
inductives, `usize` becomes `Nat`, fallible or panicking operations return
`Option`/`Except`, and the stateful two-phase iterators become explicit
state-passing functions.  The `end` field of the iterators is called `endIdx`
because `end` is a Lean keyword.
-/

namespace Shipyard

/-- `Borrow` (src/src/error.rs): AtomicRefCell's borrow error, the conflict
class of a failed borrow. -/
inductive Borrow where
  | Unique
  | Shared
  deriving DecidableEq

/-- Debug formatting of `Borrow` (src/src/error.rs, `impl Debug for Borrow`). -/
def Borrow.fmt : Borrow → String
  | .Unique => "Cannot mutably borrow while already borrowed."
  | .Shared => "Cannot immutably borrow while already mutably borrowed."

/-- Modelled from the spec: the aliasing cell's borrow-state counter (the cell
implementation is not among the provided sources; spec section 3, "Aliasing
Cell"): `Free`, `Shared(n)` readers, or `Unique`. -/
inductive BorrowState where
  | Free
  | Shared (n : Nat)
  | Unique
  deriving DecidableEq

/-- Modelled from the spec: acquiring a unique borrow succeeds only from
`Free`; against an existing shared or unique state it fails with the `Unique`
conflict class (spec sections 3 and 4.1). -/
def acquire_unique : BorrowState → Except Borrow BorrowState
  | .Free => .ok .Unique
  | _ => .error .Unique

/-- Modelled from the spec: acquiring a shared borrow fails with the `Shared`
conflict class against an existing unique state; otherwise the reader count
grows (spec sections 3 and 4.1). -/
def acquire_shared : BorrowState → Except Borrow BorrowState
  | .Free => .ok (.Shared 1)
  | .Shared n => .ok (.Shared (n + 1))
  | .Unique => .error .Shared

/-- `NewEntity` (src/src/error.rs): error of adding an entity. -/
inductive NewEntity where
  | AllStoragesBorrow (b : Borrow)
  | Entities (b : Borrow)
  deriving DecidableEq

/-- Debug formatting of `NewEntity` (src/src/error.rs); `none` models the
`unreachable!()` panic arm. -/
def NewEntity.fmt : NewEntity → Option String
  | .AllStoragesBorrow .Unique =>
    some "Cannot mutably borrow all storages while it\x27s already borrowed (this include component storage)."
  | .AllStoragesBorrow .Shared =>
    some "Cannot immutably borrow all storages while it\x27s already mutably borrowed."
  | .Entities .Unique => some "Cannot mutably borrow entities while it\x27s already borrowed."
  | .Entities .Shared => none

/-- `SetDefaultWorkload` (src/src/error.rs). -/
inductive SetDefaultWorkload where
  | Borrow (b : Borrow)
  | MissingWorkload
  deriving DecidableEq

/-- Debug formatting of `SetDefaultWorkload` (src/src/error.rs); `none` models
the `unreachable!()` panic arm. -/
def SetDefaultWorkload.fmt : SetDefaultWorkload → Option String
  | .Borrow .Unique => some "Cannot mutably borrow pipeline while it\x27s already borrowed."
  | .Borrow .Shared => none
  | .MissingWorkload => some "No workload with this name exists."

/-- `RunWorkload` (src/src/error.rs). -/
inductive RunWorkload where
  | Borrow (b : Borrow)
  | MissingWorkload
  deriving DecidableEq

/-- Debug formatting of `RunWorkload` (src/src/error.rs); `none` models the
`unreachable!()` panic arm (which here sits on the `Unique` class). -/
def RunWorkload.fmt : RunWorkload → Option String
  | .Borrow .Unique => none
  | .Borrow .Shared => some "Cannot mutably borrow pipeline while it\x27s already borrowed."
  | .MissingWorkload => some "No workload with this name exists."

/-- C2: an attempted unique borrow against an existing shared or unique state
reports the `Unique` conflict class, an attempted shared borrow against an
existing unique state reports the `Shared` conflict class, and the two classes
format to the two diagnostic messages of src/src/error.rs. -/
theorem borrow_C2 :
    (∀ n, acquire_unique (BorrowState.Shared n) = Except.error Borrow.Unique) ∧
    acquire_unique BorrowState.Unique = Except.error Borrow.Unique ∧
    acquire_shared BorrowState.Unique = Except.error Borrow.Shared ∧
    Borrow.fmt Borrow.Unique = "Cannot mutably borrow while already borrowed." ∧
    Borrow.fmt Borrow.Shared = "Cannot immutably borrow while already mutably borrowed." :=
  ⟨fun _ => rfl, rfl, rfl, rfl, rfl⟩

/-- C9: the Debug formatters of `NewEntity`, `SetDefaultWorkload` and
`RunWorkload` panic (via `unreachable!()`, modelled as `none`) exactly on
`NewEntity::Entities(Shared)`, `SetDefaultWorkload::Borrow(Shared)` and
`RunWorkload::Borrow(Unique)`, and are total on every other variant/class
combination. -/
theorem error_fmt_C9 :
    (∀ e : NewEntity, NewEntity.fmt e = none ↔ e = NewEntity.Entities Borrow.Shared) ∧
    (∀ e : SetDefaultWorkload,
      SetDefaultWorkload.fmt e = none ↔ e = SetDefaultWorkload.Borrow Borrow.Shared) ∧
    (∀ e : RunWorkload, RunWorkload.fmt e = none ↔ e = RunWorkload.Borrow Borrow.Unique) := by
  refine ⟨?_, ?_, ?_⟩
  · intro e
    cases e with
    | AllStoragesBorrow b => cases b <;> simp [NewEntity.fmt]
    | Entities b => cases b <;> simp [NewEntity.fmt]
  · intro e
    cases e with
    | Borrow b => cases b <;> simp [SetDefaultWorkload.fmt]
    | MissingWorkload => simp [SetDefaultWorkload.fmt]
  · intro e
    cases e with
    | Borrow b => cases b <;> simp [RunWorkload.fmt]
    | MissingWorkload => simp [RunWorkload.fmt]

/-- `ChunkExact1` (src/src/iter/iterators/tight/chunk_exact/single.rs): the
exact-chunk view over one tight storage; the abstract storage view
`data: T::AbsView` is a dense list, `end` is called `endIdx`. -/
structure ChunkExact1 (α : Type) where
  data : List α
  current : Nat
  endIdx : Nat
  step : Nat
  deriving DecidableEq

/-- Modelled from the spec: `AbstractMut::get_data_slice(lo..hi)` (its
implementation is not among the provided sources) returns the dense tight-pack
slice over `[lo, hi)` (spec glossary, "Tight pack"). -/
def get_data_slice {α : Type} (data : List α) (lo hi : Nat) : List α :=
  (data.drop lo).take (hi - lo)

/-- `ChunkExact1::first_pass` (chunk_exact/single.rs): while
`current + step <= end`, yield the slice `[current, current + step)` and
advance `current` by `step`; otherwise terminate with `None`. -/
def ChunkExact1.first_pass {α : Type} (it : ChunkExact1 α) :
    Option (List α × ChunkExact1 α) :=
  if it.current + it.step ≤ it.endIdx then
    some (get_data_slice it.data it.current (it.current + it.step),
          { it with current := it.current + it.step })
  else
    none

/-- `ChunkExact1::post_process` (chunk_exact/single.rs): the identity, leaving
the iterator untouched. -/
def ChunkExact1.post_process {α : Type} (it : ChunkExact1 α) (item : List α) :
    List α × ChunkExact1 α :=
  (item, it)

/-- `ChunkExact1::remainder` (chunk_exact/single.rs): shrink `end` by
`min(end - current, end % step)` and return that trailing slice.  `none` models
the Rust panics: `end % step` divides by zero when `step = 0`, and
`end - current` underflows when `current > end`. -/
def ChunkExact1.remainder {α : Type} (it : ChunkExact1 α) :
    Option (List α × ChunkExact1 α) :=
  if it.step = 0 ∨ it.endIdx < it.current then none
  else
    let rem := min (it.endIdx - it.current) (it.endIdx % it.step)
    some (get_data_slice it.data (it.endIdx - rem) it.endIdx,
          { it with endIdx := it.endIdx - rem })

/-- Repeated `first_pass` calls: collect up to `fuel` yielded slices together
with the final iterator state. -/
def runAll {α : Type} : ChunkExact1 α → Nat → List (List α) × ChunkExact1 α
  | it, 0 => ([], it)
  | it, fuel + 1 =>
    match ChunkExact1.first_pass it with
    | none => ([], it)
    | some (sl, it') =>
      let r := runAll it' fuel
      (sl :: r.1, r.2)

/-- Iterating `first_pass` for its state only: `some` while every call so far
produced an item, `none` as soon as one returned `None`. -/
def fpIter {α : Type} (it0 : ChunkExact1 α) : Nat → Option (ChunkExact1 α)
  | 0 => some it0
  | k + 1 =>
    match fpIter it0 k with
    | none => none
    | some s => Option.map Prod.snd (ChunkExact1.first_pass s)

/-- A freshly constructed exact-chunk iterator over a dense range of length
`N`: `current = 0`, `end = N`. -/
def chunkExactFresh (N step : Nat) : ChunkExact1 Nat :=
  ⟨List.range N, 0, N, step⟩

theorem drop_range_eq (c N : Nat) : (List.range N).drop c = List.range' c (N - c) := by
  rcases Nat.le_total c N with h | h
  · have h2 : List.range N = List.range' 0 c ++ List.range' c (N - c) := by
      rw [List.range_eq_range']
      have h3 := List.range'_append 0 c (N - c) 1
      simp only [Nat.one_mul, Nat.zero_add] at h3
      rw [h3, Nat.sub_add_cancel h]
    rw [h2]
    exact List.drop_left' (List.length_range' ..)
  · rw [List.drop_eq_nil_of_le (by simpa using h), Nat.sub_eq_zero_of_le h]
    rfl

theorem take_range'_of_le (c s m : Nat) (h : s ≤ m) :
    (List.range' c m).take s = List.range' c s := by
  have h2 : List.range' c m = List.range' c s ++ List.range' (c + s) (m - s) := by
    have h3 := List.range'_append c s (m - s) 1
    simp only [Nat.one_mul] at h3
    rw [h3, Nat.sub_add_cancel h]
  rw [h2]
  exact List.take_left' (List.length_range' ..)

theorem get_data_slice_range (N c s : Nat) (h : c + s ≤ N) :
    get_data_slice (List.range N) c (c + s) = List.range' c s := by
  unfold get_data_slice
  rw [Nat.add_sub_cancel_left, drop_range_eq, take_range'_of_le]
  omega

/-- Closed form of running the exact-chunk iterator with enough fuel: it yields
one slice per full step that fits in `[c, e)` and stops with the cursor right
after the last full chunk. -/
theorem runAll_spec {α : Type} (fuel : Nat) :
    ∀ (data : List α) (c e s : Nat), 1 ≤ s → (e - c) / s ≤ fuel →
    runAll (⟨data, c, e, s⟩ : ChunkExact1 α) fuel =
      ((List.range ((e - c) / s)).map
        (fun i => get_data_slice data (c + i * s) (c + i * s + s)),
       ⟨data, c + s * ((e - c) / s), e, s⟩) := by
  induction fuel with
  | zero =>
    intro data c e s hs hf
    rw [Nat.le_zero.mp hf]
    rfl
  | succ n ih =>
    intro data c e s hs hf
    by_cases hc : c + s ≤ e
    · have hk : (e - c) / s = (e - c - s) / s + 1 := by
        conv_lhs => rw [Nat.div_eq]
        rw [if_pos ⟨hs, by omega⟩]
      have hfp : ChunkExact1.first_pass (⟨data, c, e, s⟩ : ChunkExact1 α) =
          some (get_data_slice data c (c + s), ⟨data, c + s, e, s⟩) := by
        unfold ChunkExact1.first_pass
        rw [if_pos hc]
      have h2 : e - (c + s) = e - c - s := by omega
      have ihe := ih data (c + s) e s hs (by rw [h2]; omega)
      rw [h2] at ihe
      simp only [runAll, hfp, ihe, hk]
      rw [Prod.mk.injEq]
      constructor
      · rw [List.range_succ_eq_map, List.map_cons, List.map_map]
        refine congrArg₂ List.cons ?_ ?_
        · simp
        · refine List.map_congr_left fun i _ => ?_
          simp only [Function.comp_apply]
          rw [show c + (i + 1) * s = c + s + i * s by ring]
      · rw [ChunkExact1.mk.injEq]
        refine ⟨rfl, by ring, rfl, rfl⟩
    · have hfp : ChunkExact1.first_pass (⟨data, c, e, s⟩ : ChunkExact1 α) = none := by
        unfold ChunkExact1.first_pass
        rw [if_neg hc]
      have h0 : (e - c) / s = 0 := Nat.div_eq_of_lt (by omega)
      rw [h0]
      simp only [runAll, hfp]
      rfl

/-- C1: for every `step >= 1`, the fresh exact-chunk iterator over a dense
range of length `N` yields exactly `N / step` slices of exactly `step`
contiguous ascending elements; `first_pass` then terminates, `remainder()`
returns exactly the trailing `N % step` elements (shrinking `end`), and a
second `remainder()` call returns an empty slice and leaves the iterator
unchanged. -/
theorem chunk_exact_C1 (N s : Nat) (hs : 1 ≤ s) :
    (runAll (chunkExactFresh N s) (N / s)).1.length = N / s ∧
    (runAll (chunkExactFresh N s) (N / s)).1
      = (List.range (N / s)).map (fun i => List.range' (i * s) s) ∧
    ChunkExact1.first_pass (runAll (chunkExactFresh N s) (N / s)).2 = none ∧
    ChunkExact1.remainder (runAll (chunkExactFresh N s) (N / s)).2
      = some (List.range' (s * (N / s)) (N % s),
              ⟨List.range N, s * (N / s), s * (N / s), s⟩) ∧
    ChunkExact1.remainder (⟨List.range N, s * (N / s), s * (N / s), s⟩ : ChunkExact1 Nat)
      = some ([], ⟨List.range N, s * (N / s), s * (N / s), s⟩) := by
  have hrun := runAll_spec (N / s) (List.range N) 0 N s hs (by simp)
  simp only [Nat.sub_zero, Nat.zero_add] at hrun
  have hdm : N / s * s ≤ N := Nat.div_mul_le_self N s
  have hcomm : s * (N / s) = N / s * s := Nat.mul_comm ..
  have hmd : N % s + s * (N / s) = N := Nat.mod_add_div N s
  have hlist : (List.range (N / s)).map
        (fun i => get_data_slice (List.range N) (i * s) (i * s + s))
      = (List.range (N / s)).map (fun i => List.range' (i * s) s) := by
    refine List.map_congr_left fun i hi => ?_
    have hi2 : i + 1 ≤ N / s := List.mem_range.mp hi
    have h2 : (i + 1) * s ≤ N / s * s := Nat.mul_le_mul_right s hi2
    have h3 : (i + 1) * s = i * s + s := by ring
    exact get_data_slice_range N (i * s) s (by omega)
  have hno : ¬ (s * (N / s) + s ≤ N) := by
    intro hle
    have hx : (N / s + 1) * s = s * (N / s) + s := by ring
    have h4 : (N / s + 1) * s ≤ N := by omega
    have h5 := (Nat.le_div_iff_mul_le hs).mpr h4
    omega
  refine ⟨?_, ?_, ?_, ?_, ?_⟩
  · unfold chunkExactFresh
    rw [hrun]
    simp
  · unfold chunkExactFresh
    rw [hrun, hlist]
  · unfold chunkExactFresh
    rw [hrun]
    simp [ChunkExact1.first_pass, hno]
  · unfold chunkExactFresh
    rw [hrun]
    have hguard : ¬ (s = 0 ∨ N < s * (N / s)) := by omega
    have hrem : min (N - s * (N / s)) (N % s) = N % s := by omega
    have hNm : N - N % s = s * (N / s) := by omega
    simp only [ChunkExact1.remainder, hrem]
    rw [if_neg hguard, hNm]
    have hslice : get_data_slice (List.range N) (s * (N / s)) N
        = List.range' (s * (N / s)) (N % s) := by
      unfold get_data_slice
      rw [drop_range_eq]
      rw [show N - s * (N / s) = N % s by omega]
      exact take_range'_of_le _ _ _ (le_refl _)
    rw [hslice]
  · have hguard : ¬ (s = 0 ∨ s * (N / s) < s * (N / s)) := by omega
    have hrem : min (s * (N / s) - s * (N / s)) (s * (N / s) % s) = 0 := by omega
    simp only [ChunkExact1.remainder, hrem]
    rw [if_neg hguard]
    simp [get_data_slice, Nat.sub_self]

/-- C1 witness at `N = 5`, `step = 2`: the hypothesis `1 ≤ 2` is discharged and
the claim instantiated concretely. -/
theorem chunk_exact_C1_witness :
    1 ≤ 2 ∧
    ((runAll (chunkExactFresh 5 2) (5 / 2)).1.length = 5 / 2 ∧
     (runAll (chunkExactFresh 5 2) (5 / 2)).1
       = (List.range (5 / 2)).map (fun i => List.range' (i * 2) 2) ∧
     ChunkExact1.first_pass (runAll (chunkExactFresh 5 2) (5 / 2)).2 = none ∧
     ChunkExact1.remainder (runAll (chunkExactFresh 5 2) (5 / 2)).2
       = some (List.range' (2 * (5 / 2)) (5 % 2),
               ⟨List.range 5, 2 * (5 / 2), 2 * (5 / 2), 2⟩) ∧
     ChunkExact1.remainder (⟨List.range 5, 2 * (5 / 2), 2 * (5 / 2), 2⟩ : ChunkExact1 Nat)
       = some ([], ⟨List.range 5, 2 * (5 / 2), 2 * (5 / 2), 2⟩)) :=
  ⟨by decide, chunk_exact_C1 5 2 (by decide)⟩

/-- C10: exact-chunk iteration terminates only under `step >= 1`: with
`step >= 1`, `first_pass` returns `None` after at most `(end - current) / step`
successful calls; with `step = 0` (and a cursor inside the range) `first_pass`
forever yields an empty slice at the same position and never returns `None`,
and `remainder()` hits the `end % 0` division by zero (modelled as `none`). -/
theorem chunk_exact_C10 (data : List Nat) (c e s : Nat) :
    (1 ≤ s →
      ChunkExact1.first_pass
        (runAll (⟨data, c, e, s⟩ : ChunkExact1 Nat) ((e - c) / s)).2 = none) ∧
    (c ≤ e →
      ChunkExact1.first_pass (⟨data, c, e, 0⟩ : ChunkExact1 Nat)
        = some ([], ⟨data, c, e, 0⟩)) ∧
    (c ≤ e → ∀ k, fpIter (⟨data, c, e, 0⟩ : ChunkExact1 Nat) k = some ⟨data, c, e, 0⟩) ∧
    ChunkExact1.remainder (⟨data, c, e, 0⟩ : ChunkExact1 Nat) = none := by
  refine ⟨?_, ?_, ?_, ?_⟩
  · intro hs
    rw [runAll_spec ((e - c) / s) data c e s hs (le_refl _)]
    have hno : ¬ (c + s * ((e - c) / s) + s ≤ e) := by
      intro hle
      have hx : ((e - c) / s + 1) * s = s * ((e - c) / s) + s := by ring
      have h4 : ((e - c) / s + 1) * s ≤ e - c := by omega
      have h5 := (Nat.le_div_iff_mul_le hs).mpr h4
      omega
    simp [ChunkExact1.first_pass, hno]
  · intro hce
    simp [ChunkExact1.first_pass, get_data_slice, hce, Nat.sub_self]
  · intro hce k
    have hfp0 : ChunkExact1.first_pass (⟨data, c, e, 0⟩ : ChunkExact1 Nat)
        = some ([], ⟨data, c, e, 0⟩) := by
      simp [ChunkExact1.first_pass, get_data_slice, hce, Nat.sub_self]
    induction k with
    | zero => rfl
    | succ k ihk =>
      simp only [fpIter, ihk, hfp0]
      rfl
  · simp [ChunkExact1.remainder]

/-- C10 witness: the `step >= 1` bound at `data = [0,1,2]`, `step = 2`, and the
`step = 0` behaviour (perpetual empty slices, divide-by-zero remainder) on the
same data. -/
theorem chunk_exact_C10_witness :
    ChunkExact1.first_pass
      (runAll (⟨[0, 1, 2], 0, 3, 2⟩ : ChunkExact1 Nat) ((3 - 0) / 2)).2 = none ∧
    ChunkExact1.first_pass (⟨[0, 1, 2], 0, 3, 0⟩ : ChunkExact1 Nat)
      = some ([], ⟨[0, 1, 2], 0, 3, 0⟩) ∧
    fpIter (⟨[0, 1, 2], 0, 3, 0⟩ : ChunkExact1 Nat) 7 = some ⟨[0, 1, 2], 0, 3, 0⟩ ∧
    ChunkExact1.remainder (⟨[0, 1, 2], 0, 3, 0⟩ : ChunkExact1 Nat) = none :=
  ⟨(chunk_exact_C10 [0, 1, 2] 0 3 2).1 (by decide),
   (chunk_exact_C10 [0, 1, 2] 0 3 0).2.1 (by decide),
   (chunk_exact_C10 [0, 1, 2] 0 3 0).2.2.1 (by decide) 7,
   (chunk_exact_C10 [0, 1, 2] 0 3 0).2.2.2⟩

/-- The two-phase iterator interface (`Shiperator` trait), in state-passing
form: `first_pass` produces a candidate and the advanced state, `post_process`
finalizes a kept item and may update the state. -/
structure Shiperator (σ α : Type) where
  first_pass : σ → Option (α × σ)
  post_process : σ → α → α × σ

/-- `Shiperator` together with `CurrentId::current_id`, which reads the state
without changing it. -/
structure CurrentIdShip (σ α ι : Type) extends Shiperator σ α where
  current_id : σ → ι

/-- `Map` (src/src/iter/map.rs): `first_pass` pulls a candidate from the inner
iterator, runs the inner `post_process` on it, then applies `f`; its own
`post_process` is the identity and leaves the state untouched. -/
def Map.shiperator {σ α β : Type} (I : Shiperator σ α) (f : α → β) : Shiperator σ β where
  first_pass s :=
    match I.first_pass s with
    | none => none
    | some (item, s₁) =>
      let p := I.post_process s₁ item
      some (f p.1, p.2)
  post_process s item := (item, s)

/-- `WithId` (src/src/iter/with_id.rs): `first_pass` pairs the inner candidate
with `current_id` read right after the inner `first_pass`; `post_process` runs
the inner `post_process` on the item component only and keeps the id. -/
def WithId.shiperator {σ α ι : Type} (I : CurrentIdShip σ α ι) : CurrentIdShip σ (ι × α) ι where
  first_pass s :=
    match I.first_pass s with
    | none => none
    | some (item, s₁) => some ((I.current_id s₁, item), s₁)
  post_process s p :=
    let q := I.post_process s p.2
    ((p.1, q.1), q.2)
  current_id s := I.current_id s

/-- C5: the map combinator's `first_pass` yields `f` of the inner
`post_process`-ed candidate (inner `post_process` runs before `f`), is `None`
exactly when the inner `first_pass` is, and its own `post_process` is the
identity. -/
theorem map_C5 {σ α β : Type} (I : Shiperator σ α) (f : α → β) (s : σ) :
    (Map.shiperator I f).first_pass s
      = Option.map (fun p => (f (I.post_process p.2 p.1).1, (I.post_process p.2 p.1).2))
          (I.first_pass s) ∧
    ∀ b, (Map.shiperator I f).post_process s b = (b, s) := by
  constructor
  · cases h : I.first_pass s with
    | none => simp [Map.shiperator, h]
    | some p =>
      obtain ⟨item, s₁⟩ := p
      simp [Map.shiperator, h]
  · intro b
    rfl

/-- C6: the identity-pairing combinator's `first_pass` pairs each inner item
with the inner `current_id` read at the state produced by the inner
`first_pass` (hence before any `post_process` runs), and its `post_process`
applies the inner `post_process` to the item component only, returning the pair
with the identical captured id. -/
theorem with_id_C6 {σ α ι : Type} (I : CurrentIdShip σ α ι) (s : σ) :
    (WithId.shiperator I).first_pass s
      = Option.map (fun p => ((I.current_id p.2, p.1), p.2)) (I.first_pass s) ∧
    ∀ (idv : ι) (item : α),
      (WithId.shiperator I).post_process s (idv, item)
        = ((idv, (I.post_process s item).1), (I.post_process s item).2) := by
  constructor
  · cases h : I.first_pass s with
    | none => simp [WithId.shiperator, h]
    | some p =>
      obtain ⟨item, s₁⟩ := p
      simp [WithId.shiperator, h]
  · intro idv item
    rfl

/-- Modelled from the spec: the tight single-storage iterator's state (its file
is not among the provided sources): dense data and the `current`/`end` cursor
(spec section 3, "Shiperator state"). -/
structure Tight1 (α : Type) where
  data : List α
  current : Nat
  endIdx : Nat
  deriving DecidableEq

/-- Modelled from the spec: the update-pack single-storage iterator's state
(its file is not among the provided sources): dense data, the `current`/`end`
cursor, and the update-pack bookkeeping (the inserted/modified index set; spec
section 3). -/
structure Update1 (α : Type) where
  data : List α
  current : Nat
  endIdx : Nat
  modified : List Nat
  deriving DecidableEq

/-- Modelled from the spec: `Chunk1`, the non-exact chunk view (its file is not
among the provided sources), with the same cursor fields as `ChunkExact1`. -/
structure Chunk1 (α : Type) where
  data : List α
  current : Nat
  endIdx : Nat
  step : Nat
  deriving DecidableEq

/-- Modelled from the spec: `Tight1::into_chunk(step)` reuses the data and
cursor with the given step. -/
def Tight1.into_chunk {α : Type} (t : Tight1 α) (step : Nat) : Chunk1 α :=
  ⟨t.data, t.current, t.endIdx, step⟩

/-- Modelled from the spec: `Tight1::into_chunk_exact(step)` reuses the data
and cursor with the given step. -/
def Tight1.into_chunk_exact {α : Type} (t : Tight1 α) (step : Nat) : ChunkExact1 α :=
  ⟨t.data, t.current, t.endIdx, step⟩

/-- `Iter1` (src/src/iter/iterators/iter/single.rs): the closed dispatch over
the tight and the update strategies. -/
inductive Iter1 (α : Type) where
  | Tight (t : Tight1 α)
  | Update (u : Update1 α)
  deriving DecidableEq

/-- `Iter1::into_chunk` (iter/single.rs): only the `Tight` variant converts;
any other variant returns the original iterator in `Err`. -/
def Iter1.into_chunk {α : Type} : Iter1 α → Nat → Except (Iter1 α) (Chunk1 α)
  | .Tight t, step => .ok (t.into_chunk step)
  | it, _ => .error it

/-- `Iter1::into_chunk_exact` (iter/single.rs): only the `Tight` variant
converts; any other variant returns the original iterator in `Err`. -/
def Iter1.into_chunk_exact {α : Type} : Iter1 α → Nat → Except (Iter1 α) (ChunkExact1 α)
  | .Tight t, step => .ok (t.into_chunk_exact step)
  | it, _ => .error it

/-- C3: for every update-pack single-storage iterator and every step,
`into_chunk` and `into_chunk_exact` return `Err` carrying the original
iterator with all its fields unchanged (no panic, no partial conversion); for
the tight variant both succeed with `Ok`. -/
theorem iter1_C3 {α : Type} (u : Update1 α) (t : Tight1 α) (step : Nat) :
    Iter1.into_chunk (Iter1.Update u) step = Except.error (Iter1.Update u) ∧
    Iter1.into_chunk_exact (Iter1.Update u) step = Except.error (Iter1.Update u) ∧
    Iter1.into_chunk (Iter1.Tight t) step = Except.ok (t.into_chunk step) ∧
    Iter1.into_chunk_exact (Iter1.Tight t) step = Except.ok (t.into_chunk_exact step) :=
  ⟨rfl, rfl, rfl, rfl⟩

/-- Component-type identity (`std::any::TypeId`). -/
abbrev TypeId := Nat

/-- Type-erased component storage; `Storage::new::<T>()` records the type it
was created for. -/
structure Storage where
  createdFor : TypeId
  deriving DecidableEq

/-- `Storage::new::<T>()` (the storage constructor called by
`Register::register`). -/
def Storage.new (t : TypeId) : Storage := ⟨t⟩

/-- The `AllStorages` map from `TypeId` to `Storage`
(`all_storages.0` in src/src/world/register.rs), as an association list. -/
abbrev Registry := List (TypeId × Storage)

/-- Association-list lookup of the registry map. -/
def Registry.lookup : Registry → TypeId → Option Storage
  | [], _ => none
  | (k, v) :: rest, t => if k = t then some v else Registry.lookup rest t

/-- `HashMap::entry(type_id).or_insert_with(f)` as used by `Register::register`
(src/src/world/register.rs): an existing mapping is kept unchanged, otherwise
`f ()` is inserted. -/
def entry_or_insert (reg : Registry) (t : TypeId) (f : Unit → Storage) : Registry :=
  match Registry.lookup reg t with
  | some _ => reg
  | none => reg ++ [(t, f ())]

/-- The registration loop of `impl_register` (src/src/world/register.rs) over a
batch of types: `entry(TypeId::of::<T>()).or_insert_with(|| Storage::new::<T>())`
for each type in order. -/
def registerTypes (reg : Registry) (types : List TypeId) : Registry :=
  types.foldl (fun r t => entry_or_insert r t (fun _ => Storage.new t)) reg

/-- The world fragment touched by `Register::register`: the storages registry
behind its borrow cell (`world.storages`). -/
structure World where
  storagesBorrow : BorrowState
  storages : Registry
  deriving DecidableEq

/-- Outcome of `Register::register`: the source signature
`fn register(world: &World)` has no error channel, and the `.unwrap()` on
`try_borrow_mut` turns a borrow conflict into a panic. -/
inductive RegisterOutcome where
  | panicked (e : Borrow)
  | completed (reg : Registry)
  deriving DecidableEq

/-- `Register::register` (src/src/world/register.rs):
`world.storages.try_borrow_mut().unwrap()` followed by
`entry(..).or_insert_with(..)` for every type of the batch. -/
def Register.register (w : World) (types : List TypeId) : RegisterOutcome :=
  match acquire_unique w.storagesBorrow with
  | .error e => .panicked e
  | .ok _ => .completed (registerTypes w.storages types)

/-- C4 counterexample: with the storage registry already uniquely borrowed,
`Register::register` panics (unwraps the borrow error) instead of reporting the
conflict to the caller. -/
theorem register_C4_counterexample :
    Register.register ⟨BorrowState.Unique, []⟩ [0] = RegisterOutcome.panicked Borrow.Unique :=
  rfl

/-- C4 amended: `Register::register`, whose signature has no error channel,
panics with the `Unique` conflict class whenever the storage registry is
already borrowed (shared or unique), and completes the batch registration when
the registry is free; it never reports the conflict to the caller. -/
theorem register_C4_amended (w : World) (types : List TypeId) :
    (w.storagesBorrow ≠ BorrowState.Free →
      Register.register w types = RegisterOutcome.panicked Borrow.Unique) ∧
    (w.storagesBorrow = BorrowState.Free →
      Register.register w types
        = RegisterOutcome.completed (registerTypes w.storages types)) := by
  obtain ⟨sb, reg⟩ := w
  constructor
  · intro h
    cases sb with
    | Free => exact absurd rfl h
    | Shared n => rfl
    | Unique => rfl
  · intro h
    cases sb with
    | Free => rfl
    | Shared n => exact absurd h (by simp)
    | Unique => exact absurd h (by simp)

/-- C4 witness: the amended claim at a registry held by one shared borrower. -/
theorem register_C4_witness :
    Register.register ⟨BorrowState.Shared 1, []⟩ [0]
      = RegisterOutcome.panicked Borrow.Unique :=
  (register_C4_amended ⟨BorrowState.Shared 1, []⟩ [0]).1 (by simp)

theorem lookup_append_single (reg : Registry) (t : TypeId) (v : Storage)
    (h : Registry.lookup reg t = none) :
    Registry.lookup (reg ++ [(t, v)]) t = some v := by
  induction reg with
  | nil => simp [Registry.lookup]
  | cons hd tl ih =>
    obtain ⟨k, v'⟩ := hd
    simp only [Registry.lookup, List.cons_append] at h ⊢
    by_cases hk : k = t
    · rw [if_pos hk] at h
      exact absurd h (by simp)
    · rw [if_neg hk] at h ⊢
      exact ih h

/-- C7: component-type registration is idempotent: when the registry already
maps `t` to a storage, registering `t` leaves the registry (and hence that
mapping) unchanged; registering `t` twice, in one batch or across two calls,
yields the same registry as registering it once. -/
theorem register_C7 (reg : Registry) (t : TypeId) (st : Storage) :
    (Registry.lookup reg t = some st →
      registerTypes reg [t] = reg ∧
      Registry.lookup (registerTypes reg [t]) t = some st) ∧
    registerTypes reg [t, t] = registerTypes reg [t] ∧
    registerTypes (registerTypes reg [t]) [t] = registerTypes reg [t] := by
  have key : entry_or_insert (entry_or_insert reg t (fun _ => Storage.new t)) t
      (fun _ => Storage.new t) = entry_or_insert reg t (fun _ => Storage.new t) := by
    cases h : Registry.lookup reg t with
    | some v => simp [entry_or_insert, h]
    | none =>
      have h2 : Registry.lookup (reg ++ [(t, Storage.new t)]) t = some (Storage.new t) :=
        lookup_append_single reg t (Storage.new t) h
      simp [entry_or_insert, h, h2]
  refine ⟨?_, ?_, ?_⟩
  · intro h
    have h1 : registerTypes reg [t] = reg := by
      simp [registerTypes, entry_or_insert, h]
    exact ⟨h1, by rw [h1, h]⟩
  · simpa [registerTypes] using key
  · simpa [registerTypes] using key

/-- C7 witness: a registry already mapping type `0`; registering `0` again, in
any combination, keeps the registry and the original storage. -/
theorem register_C7_witness :
    registerTypes [(0, Storage.new 0)] [0] = [(0, Storage.new 0)] ∧
    Registry.lookup (registerTypes [(0, Storage.new 0)] [0]) 0 = some (Storage.new 0) ∧
    registerTypes [(0, Storage.new 0)] [0, 0] = registerTypes [(0, Storage.new 0)] [0] :=
  ⟨((register_C7 [(0, Storage.new 0)] 0 (Storage.new 0)).1 (by decide)).1,
   ((register_C7 [(0, Storage.new 0)] 0 (Storage.new 0)).1 (by decide)).2,
   (register_C7 [(0, Storage.new 0)] 0 (Storage.new 0)).2.1⟩

/-- The parameter-type shapes `expand_system` inspects
(src/shipyard_proc/src/lib.rs): a reference (`syn::Type::Reference`, with
mutability, presence of a lifetime, and the last path ident of its element when
the element is a path), a path type with the last segment's ident and its
optional angle-bracketed generic arguments (`some t` is a type argument, `none`
a non-type one such as a lifetime), or any other type shape. -/
inductive Ty where
  | reference (isMut hasLifetime : Bool) (elemPathIdent : Option String)
  | path (lastIdent : String) (angleArgs : Option (List (Option Ty)))
  | other

/-- Outcome of the per-argument check of `expand_system`: the argument is
accepted, rejected with a compile error message, or hits the `unreachable!()`
panic. -/
inductive ArgOutcome where
  | accepted
  | rejected (msg : String)
  | panicked
  deriving DecidableEq

/-- Whether the check produced a compile error. -/
def ArgOutcome.isRejected : ArgOutcome → Bool
  | .rejected _ => true
  | _ => false

/-- Whether a parameter-type shape is a reference. -/
def Ty.isReference : Ty → Bool
  | .reference _ _ _ => true
  | _ => false

/-- The per-argument acceptance check of `expand_system`
(src/shipyard_proc/src/lib.rs, the closure in `try_for_each` over
`run.sig.inputs`): every reference is accepted (the lifetime/`Entities`
rewriting the closure also performs does not affect acceptance and is omitted);
a path type is examined only when its last ident is `Not` and it carries
angle-bracketed arguments (`Not` must have exactly one argument, and that
argument must be a reference type — a non-type argument hits `unreachable!()`);
a path whose last ident is not `Not`, or a `Not` without angle-bracketed
arguments, is accepted as-is; every other type shape is rejected with the
supported-type list. -/
def check_fn_arg : Ty → ArgOutcome
  | .reference _ _ _ => .accepted
  | .path lastIdent angleArgs =>
    if lastIdent = "Not" then
      match angleArgs with
      | some args =>
        if args.length ≠ 1 then
          .rejected "Not will only accept one type and nothing else"
        else
          match args with
          | [some (.reference _ _ _)] => .accepted
          | [some _] =>
            .rejected "Not will only work with component storages refered by &T or &mut T"
          | _ => .panicked
      | none => .accepted
    else .accepted
  | .other =>
    .rejected "A system will only accept a type of this list:\n\t\t- &T for an immutable reference to T storage\n\t\t- &mut T for a mutable reference to T storage\n\t\t- &Entities for an immutable reference to the entity storage\n\t\t- &mut EntitiesMut for a mutable reference to the entity storage\n\t\t- AllStorages for a mutable reference to the storage of all components\n\t\t- ThreadPool for an immutable reference to the rayon::ThreadPool used by the World"

/-- The supported request forms as the spec lists them: read storage `&T`,
write storage `&mut T`, read/write entities (both references), write
all-storages, thread pool, or a negated read `Not` over `&T`/`&mut T`. -/
def supportedRequestForm : Ty → Bool
  | .reference _ _ _ => true
  | .path "AllStorages" none => true
  | .path "ThreadPool" none => true
  | .path "Not" (some [some (.reference _ _ _)]) => true
  | _ => false

/-- C8 counterexample: a parameter whose declared type is the bare path `Foo`
is not one of the supported request forms, yet `expand_system` accepts it
without any compile error (rejection is deferred to trait resolution). -/
theorem system_C8_counterexample :
    check_fn_arg (Ty.path "Foo" none) = ArgOutcome.accepted ∧
    supportedRequestForm (Ty.path "Foo" none) = false := by
  constructor
  · simp [check_fn_arg]
  · rfl

/-- C8 amended: `expand_system` rejects a parameter with a compile error
exactly when its declared type is neither a reference nor a path (for example a
tuple), or is a path named `Not` with angle-bracketed arguments that are not
exactly one reference type argument; every other declared type — including any
bare path that is not a supported request form — is accepted. -/
theorem system_C8_amended (ty : Ty) :
    (check_fn_arg ty).isRejected = true ↔
      (ty = Ty.other ∨
       ∃ args, ty = Ty.path "Not" (some args) ∧
         (args.length ≠ 1 ∨ ∃ t, args = [some t] ∧ t.isReference = false)) := by
  cases ty with
  | reference m l e => simp [check_fn_arg, ArgOutcome.isRejected]
  | other => simp [check_fn_arg, ArgOutcome.isRejected]
  | path ident args =>
    by_cases hident : ident = "Not"
    · subst hident
      cases args with
      | none => simp [check_fn_arg, ArgOutcome.isRejected]
      | some l =>
        by_cases hlen : l.length = 1
        · match l, hlen with
          | [a], _ =>
            cases a with
            | none => simp [check_fn_arg, ArgOutcome.isRejected]
            | some t =>
              cases t with
              | reference m l e =>
                simp [check_fn_arg, ArgOutcome.isRejected, Ty.isReference]
              | path i a =>
                simp [check_fn_arg, ArgOutcome.isRejected, Ty.isReference]
              | other =>
                simp [check_fn_arg, ArgOutcome.isRejected, Ty.isReference]
        · simp [check_fn_arg, ArgOutcome.isRejected, hlen]
    · simp [check_fn_arg, ArgOutcome.isRejected, hident]

end Shipyard
